import Mathlib

/-!
# Verification of the ECS agent Image Manager and exec-command helpers

Part 1 models the Image Manager (reference-counted, LRU-ordered image
garbage collector).  The implementation of this component is not part of
the excerpt (only its integration test is), so the definitions below are
modelled from the specification text, as their doc comments state.
Task, container and image identifiers are modelled as natural numbers
(the spec only requires identifiers with decidable equality and, for
image IDs, a linear order used as the final sorting tie-break).
Timestamps are modelled as integers.

Part 2 embeds the exec-command helper functions
`getSessionWorkersLimit` and `fileSystemSafeContainerName` from
`agent/engine/execcmd/manager_init_task_windows.go`.
-/

namespace ImageManager

/-- Modelled from the spec: §3 ImageState — wraps one image with its
canonical content-addressed ID, the set of names observed for it,
`LastUsedAt` / `PulledAt` timestamps, the set of
(task identifier, container identifier) pairs currently depending on it,
and the `RemoveStatus` flag. -/
structure ImageState where
  imageID : Nat
  names : List Nat
  lastUsedAt : Int
  pulledAt : Int
  associatedTasks : List (Nat × Nat)
  removed : Bool
deriving DecidableEq, Repr

/-- Modelled from the spec: §6 configuration surface — the age floor
`MinimumImageDeletionAge` and the per-cycle cap `NumImagesToDeletePerCycle`. -/
structure IMConfig where
  minimumImageDeletionAge : Int
  numImagesToDeletePerCycle : Nat
deriving DecidableEq, Repr

/-- Modelled from the spec: §4.2 Eligibility Evaluator — pure function
`IsEligible(state, config, now)`, the conjunction of
(1) empty association set, (2) inclusive age floor
`now - PulledAt >= MinimumImageDeletionAge`, (3) not already marked removed. -/
def IsEligible (s : ImageState) (cfg : IMConfig) (now : Int) : Bool :=
  s.associatedTasks.isEmpty
    && decide (cfg.minimumImageDeletionAge ≤ now - s.pulledAt)
    && !s.removed

/-- Modelled from the spec: §4.1 `RemoveAssociation(id, task, container)` —
removes the pair (task, container) from the association set of the image
resolved by `id`; removal of a pair that is not present is a no-op, not an
error (§4.4). -/
def removePair (s : ImageState) (t c : Nat) : ImageState :=
  { s with associatedTasks := s.associatedTasks.filter (fun p => p ≠ (t, c)) }

/-- Modelled from the spec: the store-level `RemoveAssociation` operation,
acting on the in-memory store (a list of ImageState records keyed by the
canonical image ID). -/
def RemoveAssociation (store : List ImageState) (id t c : Nat) :
    List ImageState :=
  store.map (fun s => if s.imageID = id then removePair s t c else s)

/-- Modelled from the spec: §4.3 step 3 sort order — ascending by
`LastUsedAt`, ties broken by `PulledAt` ascending, then by image ID, as a
Boolean comparator. -/
def stateLEb (a b : ImageState) : Bool :=
  decide (a.lastUsedAt < b.lastUsedAt) ||
    (decide (a.lastUsedAt = b.lastUsedAt) &&
      (decide (a.pulledAt < b.pulledAt) ||
        (decide (a.pulledAt = b.pulledAt) && decide (a.imageID ≤ b.imageID))))

/-- The sort order as a proposition, for use with `List.insertionSort`. -/
def stateLE (a b : ImageState) : Prop := stateLEb a b = true

instance : DecidableRel stateLE :=
  fun a b => inferInstanceAs (Decidable (stateLEb a b = true))

instance : IsTotal ImageState stateLE where
  total a b := by
    simp only [stateLE, stateLEb, Bool.or_eq_true, Bool.and_eq_true,
      decide_eq_true_eq]
    omega

instance : IsTrans ImageState stateLE where
  trans a b c hab hbc := by
    simp only [stateLE, stateLEb, Bool.or_eq_true, Bool.and_eq_true,
      decide_eq_true_eq] at hab hbc ⊢
    omega

/-- Modelled from the spec: §4.3 steps 1–2 — snapshot all tracked states
and filter them by the Eligibility Evaluator. -/
def eligibleStates (store : List ImageState) (cfg : IMConfig) (now : Int) :
    List ImageState :=
  store.filter (fun s => IsEligible s cfg now)

/-- Modelled from the spec: §4.3 step 3 — sort the surviving candidates
ascending by `LastUsedAt`, ties broken by `PulledAt`, then by image ID. -/
def sortedCandidates (store : List ImageState) (cfg : IMConfig) (now : Int) :
    List ImageState :=
  (eligibleStates store cfg now).insertionSort stateLE

/-- Modelled from the spec: §4.3 step 4 — take the first
`NumImagesToDeletePerCycle` candidates (bounded batch). -/
def gcBatch (store : List ImageState) (cfg : IMConfig) (now : Int) :
    List ImageState :=
  (sortedCandidates store cfg now).take cfg.numImagesToDeletePerCycle

/-- Modelled from the spec: §6 Runtime Adapter — the outcome of a
`RemoveImage` call: success, `NotFoundError`, or any other failure. -/
inductive RemoveResult where
  | ok
  | notFound
  | otherError
deriving DecidableEq, Repr

/-- Whether a `RemoveImage` outcome confirms removal: success and
`NotFoundError` both do (§4.3 step 5, §7 taxonomy). -/
def confirmsRemoval : RemoveResult → Bool
  | RemoveResult.ok => true
  | RemoveResult.notFound => true
  | RemoveResult.otherError => false

/-- Modelled from the spec: §4.3 steps 5–6 — process the batch in order.
For each candidate, re-validate its current association set (the `live`
view, which may differ from the cycle-start snapshot) immediately before
invoking the Runtime Adapter; a candidate whose current association set is
non-empty is skipped without any adapter call.  Otherwise the adapter is
invoked; on success or `NotFoundError` the candidate's ID is recorded as
removed, on any other failure the candidate is skipped and processing
continues with the rest of the batch.  Returns the list of removed IDs and
the list of IDs for which the adapter was actually invoked. -/
def processBatch (adapter : Nat → RemoveResult)
    (live : Nat → List (Nat × Nat)) :
    List ImageState → List Nat × List Nat
  | [] => ([], [])
  | s :: rest =>
    let (removed, calls) := processBatch adapter live rest
    if (live s.imageID).isEmpty then
      match adapter s.imageID with
      | RemoveResult.ok => (s.imageID :: removed, s.imageID :: calls)
      | RemoveResult.notFound => (s.imageID :: removed, s.imageID :: calls)
      | RemoveResult.otherError => (removed, s.imageID :: calls)
    else
      (removed, calls)

/-- The outcome of one GC cycle: removed IDs, the sequence of Runtime
Adapter invocations, the updated store, and the entries appended to the
persisted log. -/
structure CycleResult where
  removed : List Nat
  adapterCalls : List Nat
  store : List ImageState
  log : List Nat
deriving DecidableEq, Repr

/-- Modelled from the spec: §4.3 `RunCycle` — snapshot, filter by
eligibility, sort, take the per-cycle cap, process each candidate in order
(re-validating associations before each adapter call), delete confirmed
removals from the store and append them to the persisted log, and return
the removed IDs. -/
def RunCycle (store : List ImageState) (cfg : IMConfig) (now : Int)
    (adapter : Nat → RemoveResult) (live : Nat → List (Nat × Nat)) :
    CycleResult :=
  let batch := gcBatch store cfg now
  let res := processBatch adapter live batch
  { removed := res.1
    adapterCalls := res.2
    store := store.filter (fun s => decide (s.imageID ∉ res.1))
    log := res.1 }

end ImageManager

namespace ImageManager

/-- The removed IDs of a processed batch are the IDs of the candidates
whose live association set is empty and whose adapter outcome confirms
removal, in batch order. -/
lemma processBatch_fst (adapter : Nat → RemoveResult)
    (live : Nat → List (Nat × Nat)) (batch : List ImageState) :
    (processBatch adapter live batch).1
      = (batch.filter (fun s =>
          (live s.imageID).isEmpty && confirmsRemoval (adapter s.imageID))).map
          (fun s => s.imageID) := by
  induction batch with
  | nil => rfl
  | cons s rest ih =>
    simp only [processBatch]
    by_cases hl : (live s.imageID).isEmpty
    · cases hr : adapter s.imageID <;>
        simp [hl, hr, List.filter_cons, confirmsRemoval, ih]
    · simp only [Bool.not_eq_true] at hl
      simp [hl, List.filter_cons, ih]

/-- The adapter invocations of a processed batch are exactly the IDs of the
candidates whose live association set is empty, in batch order. -/
lemma processBatch_snd (adapter : Nat → RemoveResult)
    (live : Nat → List (Nat × Nat)) (batch : List ImageState) :
    (processBatch adapter live batch).2
      = (batch.filter (fun s => (live s.imageID).isEmpty)).map
          (fun s => s.imageID) := by
  induction batch with
  | nil => rfl
  | cons s rest ih =>
    simp only [processBatch]
    by_cases hl : (live s.imageID).isEmpty
    · cases hr : adapter s.imageID <;> simp [hl, hr, List.filter_cons, ih]
    · simp only [Bool.not_eq_true] at hl
      simp [hl, List.filter_cons, ih]

/-- Results of `processBatch` agree for two adapters whose outcomes confirm
removal at exactly the same IDs (success and `NotFoundError` are
interchangeable). -/
lemma processBatch_congr (adapter adapter' : Nat → RemoveResult)
    (live : Nat → List (Nat × Nat)) (batch : List ImageState)
    (h : ∀ i, confirmsRemoval (adapter i) = confirmsRemoval (adapter' i)) :
    processBatch adapter live batch = processBatch adapter' live batch := by
  induction batch with
  | nil => rfl
  | cons s rest ih =>
    have hs := h s.imageID
    simp only [processBatch, ih]
    cases h1 : adapter s.imageID <;> cases h2 : adapter' s.imageID <;>
      simp_all [confirmsRemoval]

/-- A concrete image state used by the witnesses below. -/
def exImg (i : Nat) (lu pu : Int) : ImageState :=
  { imageID := i, names := [], lastUsedAt := lu, pulledAt := pu,
    associatedTasks := [], removed := false }

/-- A concrete store used by the witnesses below. -/
def exStore : List ImageState := [exImg 1 100 0, exImg 2 50 0, exImg 3 75 0]

/-- A concrete configuration used by the witnesses below. -/
def exCfg : IMConfig :=
  { minimumImageDeletionAge := 10, numImagesToDeletePerCycle := 2 }

/-- A live association view with no associations, used by the witnesses. -/
def liveEmpty : Nat → List (Nat × Nat) := fun _ => []

/-- An adapter that always succeeds, used by the witnesses. -/
def adapterOK : Nat → RemoveResult := fun _ => RemoveResult.ok

/-- An adapter that always reports `NotFoundError`, used by the witnesses. -/
def adapterNF : Nat → RemoveResult := fun _ => RemoveResult.notFound

/-- C2: one GC cycle removes at most `NumImagesToDeletePerCycle` images,
for every store, configuration, clock, adapter and live view. -/
theorem gc_batch_cap (store : List ImageState) (cfg : IMConfig) (now : Int)
    (adapter : Nat → RemoveResult) (live : Nat → List (Nat × Nat)) :
    (RunCycle store cfg now adapter live).removed.length
      ≤ cfg.numImagesToDeletePerCycle := by
  simp only [RunCycle]
  rw [processBatch_fst, List.length_map]
  calc ((gcBatch store cfg now).filter _).length
      ≤ (gcBatch store cfg now).length := List.length_filter_le _ _
    _ ≤ cfg.numImagesToDeletePerCycle := List.length_take_le _ _

/-- C7: the cycle re-validates the current association set immediately
before each Runtime Adapter invocation — every ID the adapter is invoked
on has an empty association set in the live view at that moment. -/
theorem gc_revalidates_before_adapter (store : List ImageState)
    (cfg : IMConfig) (now : Int) (adapter : Nat → RemoveResult)
    (live : Nat → List (Nat × Nat)) :
    ∀ i ∈ (RunCycle store cfg now adapter live).adapterCalls, live i = [] := by
  intro i hi
  simp only [RunCycle] at hi
  rw [processBatch_snd] at hi
  obtain ⟨s, hs, rfl⟩ := List.mem_map.mp hi
  exact List.isEmpty_iff.mp (List.mem_filter.mp hs).2

/-- Witness for C7: in the concrete cycle, image 2 is among the adapter
invocations, and its live association set is empty. -/
theorem gc_revalidates_before_adapter_witness :
    2 ∈ (RunCycle exStore exCfg 1000 adapterOK liveEmpty).adapterCalls
    ∧ liveEmpty 2 = [] :=
  ⟨by decide,
   gc_revalidates_before_adapter exStore exCfg 1000 adapterOK liveEmpty 2
     (by decide)⟩

/-- C6: a candidate for which the adapter reports a failure other than
`NotFoundError` is not deleted from the store (its record survives the
cycle unchanged, so it is reconsidered next cycle), and the rest of the
batch is still processed exactly as it would have been. -/
theorem gc_failure_isolated (store : List ImageState) (cfg : IMConfig)
    (now : Int) (adapter : Nat → RemoveResult)
    (live : Nat → List (Nat × Nat)) (bad : Nat)
    (herr : adapter bad = RemoveResult.otherError) :
    bad ∉ (RunCycle store cfg now adapter live).removed
    ∧ (∀ s ∈ store, s.imageID = bad →
        s ∈ (RunCycle store cfg now adapter live).store)
    ∧ (∀ s : ImageState, ∀ rest : List ImageState, s.imageID = bad →
        (live bad).isEmpty = true →
        processBatch adapter live (s :: rest)
          = ((processBatch adapter live rest).1,
             bad :: (processBatch adapter live rest).2)) := by
  have hnot : bad ∉ (RunCycle store cfg now adapter live).removed := by
    intro h
    simp only [RunCycle] at h
    rw [processBatch_fst] at h
    obtain ⟨s, hs, hsid⟩ := List.mem_map.mp h
    have hq := (List.mem_filter.mp hs).2
    rw [Bool.and_eq_true] at hq
    rw [hsid, herr] at hq
    exact Bool.false_ne_true hq.2
  refine ⟨hnot, fun s hs hsid => ?_, fun s rest hsid hlv => ?_⟩
  · simp only [RunCycle] at hnot ⊢
    refine List.mem_filter.mpr ⟨hs, ?_⟩
    rw [decide_eq_true_iff, hsid]
    exact hnot
  · simp only [processBatch, hsid, hlv, if_pos, herr]

/-- Witness for C6: with an adapter failing only on image 2, the concrete
cycle does not delete image 2's record. -/
theorem gc_failure_isolated_witness :
    ((fun i => if i = 2 then RemoveResult.otherError else RemoveResult.ok) 2
      = RemoveResult.otherError)
    ∧ 2 ∉ (RunCycle exStore exCfg 1000
        (fun i => if i = 2 then RemoveResult.otherError else RemoveResult.ok)
        liveEmpty).removed :=
  ⟨rfl,
   (gc_failure_isolated exStore exCfg 1000
      (fun i => if i = 2 then RemoveResult.otherError else RemoveResult.ok)
      liveEmpty 2 rfl).1⟩

/-- C5: a `NotFoundError` from the adapter is treated exactly like a
successful removal — the whole cycle result is the same as if the adapter
had succeeded on that ID, the record is deleted from the store exactly
once, and the persisted log is appended. -/
theorem gc_notFound_is_success (store : List ImageState) (cfg : IMConfig)
    (now : Int) (adapter : Nat → RemoveResult)
    (live : Nat → List (Nat × Nat)) (a : Nat)
    (hnf : adapter a = RemoveResult.notFound)
    (hmem : a ∈ ((gcBatch store cfg now).filter
        (fun s => (live s.imageID).isEmpty)).map (fun s => s.imageID))
    (hnodup : (store.map (fun s => s.imageID)).Nodup) :
    RunCycle store cfg now adapter live
      = RunCycle store cfg now
          (fun i => if i = a then RemoveResult.ok else adapter i) live
    ∧ (RunCycle store cfg now adapter live).removed.count a = 1
    ∧ a ∈ (RunCycle store cfg now adapter live).log
    ∧ ∀ s ∈ (RunCycle store cfg now adapter live).store, s.imageID ≠ a := by
  have hcongr : processBatch adapter live (gcBatch store cfg now)
      = processBatch
          (fun i => if i = a then RemoveResult.ok else adapter i) live
          (gcBatch store cfg now) := by
    apply processBatch_congr
    intro i
    by_cases h : i = a
    · rw [h, hnf, if_pos rfl]
      rfl
    · rw [if_neg h]
  obtain ⟨s, hsf, hsid⟩ := List.mem_map.mp hmem
  have hsb : s ∈ gcBatch store cfg now := (List.mem_filter.mp hsf).1
  have hsl : (live s.imageID).isEmpty = true := (List.mem_filter.mp hsf).2
  have hrem : a ∈ (RunCycle store cfg now adapter live).removed := by
    simp only [RunCycle]
    rw [processBatch_fst]
    refine List.mem_map.mpr ⟨s, List.mem_filter.mpr ⟨hsb, ?_⟩, hsid⟩
    rw [Bool.and_eq_true, hsid, hnf]
    exact ⟨hsid ▸ hsl, rfl⟩
  have hnd : (RunCycle store cfg now adapter live).removed.Nodup := by
    simp only [RunCycle]
    rw [processBatch_fst]
    have h1 : List.Sublist
        (((gcBatch store cfg now).filter
          (fun s => (live s.imageID).isEmpty
            && confirmsRemoval (adapter s.imageID))).map (fun s => s.imageID))
        ((gcBatch store cfg now).map (fun s => s.imageID)) :=
      (List.filter_sublist _).map _
    have h2 : List.Sublist ((gcBatch store cfg now).map (fun s => s.imageID))
        ((sortedCandidates store cfg now).map (fun s => s.imageID)) :=
      (List.take_sublist _ _).map _
    have h3 : List.Perm
        ((sortedCandidates store cfg now).map (fun s => s.imageID))
        ((eligibleStates store cfg now).map (fun s => s.imageID)) :=
      (List.perm_insertionSort stateLE _).map _
    have h4 : List.Sublist
        ((eligibleStates store cfg now).map (fun s => s.imageID))
        (store.map (fun s => s.imageID)) :=
      (List.filter_sublist _).map _
    exact h1.nodup (h2.nodup (h3.nodup_iff.mpr (h4.nodup hnodup)))
  refine ⟨?_, List.count_eq_one_of_mem hnd hrem, hrem, fun s hs hsa => ?_⟩
  · simp only [RunCycle, hcongr]
  · simp only [RunCycle] at hs hrem
    have hf := (List.mem_filter.mp hs).2
    rw [decide_eq_true_iff, hsa] at hf
    exact hf hrem

/-- Witness for C5. -/
theorem gc_notFound_is_success_witness :
    (adapterNF 2 = RemoveResult.notFound)
    ∧ 2 ∈ ((gcBatch exStore exCfg 1000).filter
        (fun s => (liveEmpty s.imageID).isEmpty)).map (fun s => s.imageID)
    ∧ (exStore.map (fun s => s.imageID)).Nodup
    ∧ (RunCycle exStore exCfg 1000 adapterNF liveEmpty).removed.count 2 = 1 :=
  ⟨rfl, by decide, by decide,
   (gc_notFound_is_success exStore exCfg 1000 adapterNF liveEmpty 2 rfl
      (by decide) (by decide)).2.1⟩

/-- C3: when all removals succeed and no association is added concurrently,
the removed IDs of one cycle are exactly the first cap-many candidates of
the LRU order (ascending `LastUsedAt`, ties by `PulledAt` then ID), in that
order; when the eligible candidates have pairwise-distinct `LastUsedAt`
values and there are more of them than the cap, exactly cap-many are
removed and every removed candidate is strictly less recently used than
every surviving candidate. -/
theorem gc_lru_order (store : List ImageState) (cfg : IMConfig) (now : Int)
    (adapter : Nat → RemoveResult) (live : Nat → List (Nat × Nat))
    (hok : ∀ i, adapter i = RemoveResult.ok)
    (hlive : ∀ i, live i = [])
    (hdist : (eligibleStates store cfg now).Pairwise
      (fun x y => x.lastUsedAt ≠ y.lastUsedAt))
    (hcap : cfg.numImagesToDeletePerCycle
      < (eligibleStates store cfg now).length) :
    (RunCycle store cfg now adapter live).removed
        = ((sortedCandidates store cfg now).take
            cfg.numImagesToDeletePerCycle).map (fun s => s.imageID)
    ∧ (RunCycle store cfg now adapter live).removed.length
        = cfg.numImagesToDeletePerCycle
    ∧ List.Sorted stateLE (sortedCandidates store cfg now)
    ∧ ∀ x ∈ (sortedCandidates store cfg now).take
          cfg.numImagesToDeletePerCycle,
        ∀ y ∈ (sortedCandidates store cfg now).drop
            cfg.numImagesToDeletePerCycle,
          x.lastUsedAt < y.lastUsedAt := by
  have hfilter : (gcBatch store cfg now).filter
      (fun s => (live s.imageID).isEmpty
        && confirmsRemoval (adapter s.imageID)) = gcBatch store cfg now := by
    apply List.filter_eq_self.mpr
    intro s _
    rw [hlive s.imageID, hok s.imageID]
    rfl
  have hrm : (RunCycle store cfg now adapter live).removed
      = ((sortedCandidates store cfg now).take
          cfg.numImagesToDeletePerCycle).map (fun s => s.imageID) := by
    simp only [RunCycle]
    rw [processBatch_fst, hfilter]
    rfl
  have hsorted : List.Sorted stateLE (sortedCandidates store cfg now) :=
    List.sorted_insertionSort stateLE _
  have hlen : (RunCycle store cfg now adapter live).removed.length
      = cfg.numImagesToDeletePerCycle := by
    rw [hrm, List.length_map, List.length_take]
    have hl : (sortedCandidates store cfg now).length
        = (eligibleStates store cfg now).length :=
      (List.perm_insertionSort stateLE _).length_eq
    rw [hl]
    omega
  refine ⟨hrm, hlen, hsorted, fun x hx y hy => ?_⟩
  have hdist2 : (sortedCandidates store cfg now).Pairwise
      (fun x y => x.lastUsedAt ≠ y.lastUsedAt) := by
    exact ((List.perm_insertionSort stateLE
      (eligibleStates store cfg now)).pairwise_iff
        (fun h => Ne.symm h)).mpr hdist
  have hsplit : (sortedCandidates store cfg now).take
        cfg.numImagesToDeletePerCycle
      ++ (sortedCandidates store cfg now).drop
        cfg.numImagesToDeletePerCycle
      = sortedCandidates store cfg now :=
    List.take_append_drop _ _
  have hle : stateLE x y := by
    have hp : ((sortedCandidates store cfg now).take
          cfg.numImagesToDeletePerCycle
        ++ (sortedCandidates store cfg now).drop
          cfg.numImagesToDeletePerCycle).Pairwise stateLE := by
      rw [hsplit]
      exact hsorted
    exact ((List.pairwise_append.mp hp).2.2) x hx y hy
  have hne : x.lastUsedAt ≠ y.lastUsedAt := by
    have hp : ((sortedCandidates store cfg now).take
          cfg.numImagesToDeletePerCycle
        ++ (sortedCandidates store cfg now).drop
          cfg.numImagesToDeletePerCycle).Pairwise
        (fun x y => x.lastUsedAt ≠ y.lastUsedAt) := by
      rw [hsplit]
      exact hdist2
    exact ((List.pairwise_append.mp hp).2.2) x hx y hy
  have hle2 := hle
  simp only [stateLE, stateLEb, Bool.or_eq_true, Bool.and_eq_true,
    decide_eq_true_eq] at hle2
  omega

/-- Witness for C3: Scenario A — three unassociated old images with
distinct last-used times and cap 2; exactly the two least-recently-used
(IDs 2 and 3) are removed, in LRU order. -/
theorem gc_lru_order_witness :
    (∀ i, adapterOK i = RemoveResult.ok)
    ∧ (∀ i, liveEmpty i = [])
    ∧ (eligibleStates exStore exCfg 1000).Pairwise
        (fun x y => x.lastUsedAt ≠ y.lastUsedAt)
    ∧ exCfg.numImagesToDeletePerCycle
        < (eligibleStates exStore exCfg 1000).length
    ∧ (RunCycle exStore exCfg 1000 adapterOK liveEmpty).removed = [2, 3] :=
  ⟨fun _ => rfl, fun _ => rfl, by decide, by decide,
   by
    have h := (gc_lru_order exStore exCfg 1000 adapterOK liveEmpty
      (fun _ => rfl) (fun _ => rfl) (by decide) (by decide)).1
    rw [h]
    decide⟩

/-- C1: an ImageState with a non-empty association set is never eligible,
for every configuration and clock value, and hence is never part of the
batch a GC cycle selects for removal. -/
theorem isEligible_false_of_assoc (s : ImageState) (cfg : IMConfig) (now : Int)
    (h : s.associatedTasks ≠ []) :
    IsEligible s cfg now = false
    ∧ ∀ store : List ImageState, s ∉ gcBatch store cfg now := by
  have hfalse : IsEligible s cfg now = false := by
    simp [IsEligible, List.isEmpty_iff, h]
  refine ⟨hfalse, fun store hmem => ?_⟩
  have h1 : s ∈ sortedCandidates store cfg now :=
    List.take_subset _ _ hmem
  have h2 : s ∈ eligibleStates store cfg now :=
    (List.perm_insertionSort stateLE _).mem_iff.mp h1
  have h3 := List.of_mem_filter h2
  rw [hfalse] at h3
  exact Bool.false_ne_true h3

/-- Witness for C1. -/
theorem isEligible_false_of_assoc_witness :
    ({ imageID := 1, names := [7], lastUsedAt := 0, pulledAt := 0,
       associatedTasks := [(3, 4)], removed := false } : ImageState).associatedTasks ≠ []
    ∧ IsEligible
        { imageID := 1, names := [7], lastUsedAt := 0, pulledAt := 0,
          associatedTasks := [(3, 4)], removed := false }
        { minimumImageDeletionAge := 0, numImagesToDeletePerCycle := 5 }
        1000000 = false :=
  ⟨by decide,
   (isEligible_false_of_assoc _ _ 1000000 (by decide)).1⟩

/-- C4: for a state with no associations that is not marked removed,
eligibility holds exactly when `now - PulledAt ≥ MinimumImageDeletionAge`
(the comparison is inclusive). -/
theorem isEligible_age_floor (s : ImageState) (cfg : IMConfig) (now : Int)
    (h1 : s.associatedTasks = []) (h2 : s.removed = false) :
    IsEligible s cfg now = true ↔
      cfg.minimumImageDeletionAge ≤ now - s.pulledAt := by
  simp [IsEligible, h1, h2]

/-- Witness for C4: eligibility holds at exactly the threshold age and
fails strictly below it. -/
theorem isEligible_age_floor_witness :
    (IsEligible
      { imageID := 1, names := [], lastUsedAt := 0, pulledAt := 100,
        associatedTasks := [], removed := false }
      { minimumImageDeletionAge := 15, numImagesToDeletePerCycle := 5 }
      115 = true ↔ (15 : Int) ≤ 115 - 100)
    ∧ IsEligible
      { imageID := 1, names := [], lastUsedAt := 0, pulledAt := 100,
        associatedTasks := [], removed := false }
      { minimumImageDeletionAge := 15, numImagesToDeletePerCycle := 5 }
      114 = false :=
  ⟨isEligible_age_floor _ _ 115 rfl rfl, by decide⟩

lemma filter_ne_idem (l : List (Nat × Nat)) (t c : Nat) :
    (l.filter (fun p => p ≠ (t, c))).filter (fun p => p ≠ (t, c))
      = l.filter (fun p => p ≠ (t, c)) := by
  induction l with
  | nil => rfl
  | cons a l ih =>
    by_cases h : a = (t, c) <;> simp [h, ih]

lemma map_eq_self_of {α : Type} (f : α → α) (l : List α)
    (h : ∀ x ∈ l, f x = x) : l.map f = l := by
  induction l with
  | nil => rfl
  | cons a l ih =>
    simp only [List.map_cons, h a (List.mem_cons_self a l)]
    rw [ih (fun x hx => h x (List.mem_cons_of_mem a hx))]

lemma removePair_imageID (s : ImageState) (t c : Nat) :
    (removePair s t c).imageID = s.imageID := rfl

lemma removePair_idem (s : ImageState) (t c : Nat) :
    removePair (removePair s t c) t c = removePair s t c := by
  simp only [removePair, filter_ne_idem]

/-- C8: `RemoveAssociation` is idempotent — removing a pair that is not
present leaves the store unchanged (and signals no error), and replaying
the same removal twice yields the same store as applying it once. -/
theorem removeAssociation_idem (store : List ImageState) (id t c : Nat)
    (habs : ∀ s ∈ store, s.imageID = id → (t, c) ∉ s.associatedTasks) :
    RemoveAssociation store id t c = store
    ∧ ∀ st : List ImageState,
        RemoveAssociation (RemoveAssociation st id t c) id t c
          = RemoveAssociation st id t c := by
  constructor
  · unfold RemoveAssociation
    apply map_eq_self_of
    intro s hs
    by_cases h : s.imageID = id
    · have hnot := habs s hs h
      have hf : s.associatedTasks.filter (fun p => p ≠ (t, c))
          = s.associatedTasks := by
        apply List.filter_eq_self.mpr
        intro p hp
        simp only [ne_eq, decide_eq_true_eq]
        intro hpe
        exact hnot (hpe ▸ hp)
      have hsr : removePair s t c = s := by
        simp only [removePair, hf]
      rw [if_pos h, hsr]
    · rw [if_neg h]
  · intro st
    unfold RemoveAssociation
    rw [List.map_map]
    apply List.map_congr_left
    intro s _
    by_cases h : s.imageID = id
    · have h2 : (removePair s t c).imageID = id := by rw [removePair_imageID, h]
      simp only [Function.comp_apply, if_pos h, if_pos h2, removePair_idem]
    · simp only [Function.comp_apply, if_neg h]

/-- Witness for C8. -/
theorem removeAssociation_idem_witness :
    (∀ s ∈ [({ imageID := 1, names := [], lastUsedAt := 0, pulledAt := 0,
               associatedTasks := [(5, 6)], removed := false } : ImageState)],
        s.imageID = 1 → (3, 4) ∉ s.associatedTasks)
    ∧ RemoveAssociation
        [{ imageID := 1, names := [], lastUsedAt := 0, pulledAt := 0,
           associatedTasks := [(5, 6)], removed := false }] 1 3 4
      = [{ imageID := 1, names := [], lastUsedAt := 0, pulledAt := 0,
           associatedTasks := [(5, 6)], removed := false }] :=
  ⟨by decide,
   (removeAssociation_idem
      [{ imageID := 1, names := [], lastUsedAt := 0, pulledAt := 0,
         associatedTasks := [(5, 6)], removed := false }] 1 3 4
      (by decide)).1⟩

end ImageManager

namespace ExecCmd

/-- The default session workers limit
(`defaultSessionLimit = 2` in `manager_init_task_windows.go`). -/
def defaultSessionLimit : Int := 2

/-- The managed agent record, reduced to the only field
`getSessionWorkersLimit` reads: the `Properties` map (`map[string]string`
in Go, `nil` when ACS sent no properties), modelled as an optional
association list. -/
structure ManagedAgent where
  Properties : Option (List (String × String))

/-- Accumulate the value of a run of decimal digits; fails at the first
non-digit character. -/
def digitsValAux : List Char → Nat → Option Nat
  | [], acc => some acc
  | c :: rest, acc =>
    if c.isDigit then digitsValAux rest (10 * acc + (c.toNat - 48)) else none

/-- Parse a non-empty run of decimal digits. -/
def parseDigits : List Char → Option Nat
  | [] => none
  | cs => digitsValAux cs 0

/-- The syntax of Go `strconv.Atoi` input: an optional `+` or `-` sign
followed by one or more decimal digits. -/
def goAtoiCore (cs : List Char) : Option Int :=
  match cs with
  | [] => none
  | c :: rest =>
    if c = '-' then (parseDigits rest).map (fun n => -(n : Int))
    else if c = '+' then (parseDigits rest).map (fun n => (n : Int))
    else (parseDigits (c :: rest)).map (fun n => (n : Int))

/-- Embeds Go `strconv.Atoi` (base 10): returns the pair (value, err flag)
Go returns — on a syntax error the value is 0 and the error flag is set.
Machine-integer range clamping is not modelled (values are unbounded). -/
def goAtoi (s : String) : Int × Bool :=
  match goAtoiCore s.data with
  | none => (0, true)
  | some v => (v, false)

/-- Embeds `getSessionWorkersLimit` from
`agent/engine/execcmd/manager_init_task_windows.go`: the default limit 2
when `Properties` is nil or lacks the `sessionLimit` key; on a parse
error the (zero) result of the failed `Atoi` is returned as-is; a parsed
value `<= 0` falls back to the default. -/
def getSessionWorkersLimit (ma : ManagedAgent) : Int :=
  let limit : Int := defaultSessionLimit
  match ma.Properties with
  | none => limit
  | some props =>
    match props.lookup "sessionLimit" with
    | none => limit
    | some limitStr =>
      let pr := goAtoi limitStr
      if pr.2 then pr.1
      else if pr.1 ≤ 0 then defaultSessionLimit
      else pr.1

/-- The fallback name used when trimming leaves an empty container name
(`namelessContainerPrefix` in the source). -/
def namelessContainerPrefixStr : String := "nameless-container-"

/-- Embeds `strings.TrimLeft(name, "-")`: remove all leading hyphens. -/
def trimLeftHyphens (s : String) : String :=
  ⟨s.data.dropWhile (fun c => c = '-')⟩

/-- Embeds `fileSystemSafeContainerName` from
`agent/engine/execcmd/manager_init_task_windows.go`; the freshly generated
UUID (`newUUID()` in the source) is passed as the `uuid` argument. -/
def fileSystemSafeContainerName (name uuid : String) : String :=
  let cn := trimLeftHyphens name
  if cn = "" then namelessContainerPrefixStr ++ uuid else cn

end ExecCmd

namespace ExecCmd

lemma goAtoi_err_fst_eq_zero (s : String) (h : (goAtoi s).2 = true) :
    (goAtoi s).1 = 0 := by
  unfold goAtoi at h ⊢
  cases hg : goAtoiCore s.data <;> simp [hg] at h ⊢

/-- C9: `getSessionWorkersLimit` returns the default limit 2 when the
`Properties` map is nil, when it lacks the `sessionLimit` key, or when the
parsed value is not positive; but when the value is present and is not
parseable as a decimal integer, it returns 0 (the zero result of the
failed parse), not the default; a parseable positive value is returned
unchanged. -/
theorem getSessionWorkersLimit_spec (ma : ManagedAgent) :
    (ma.Properties = none → getSessionWorkersLimit ma = 2)
    ∧ (∀ props, ma.Properties = some props →
        props.lookup "sessionLimit" = none → getSessionWorkersLimit ma = 2)
    ∧ (∀ props s v, ma.Properties = some props →
        props.lookup "sessionLimit" = some s → goAtoi s = (v, false) →
        v ≤ 0 → getSessionWorkersLimit ma = 2)
    ∧ (∀ props s, ma.Properties = some props →
        props.lookup "sessionLimit" = some s → (goAtoi s).2 = true →
        getSessionWorkersLimit ma = 0)
    ∧ (∀ props s v, ma.Properties = some props →
        props.lookup "sessionLimit" = some s → goAtoi s = (v, false) →
        0 < v → getSessionWorkersLimit ma = v) := by
  refine ⟨fun h => ?_, fun props h1 h2 => ?_, fun props s v h1 h2 h3 h4 => ?_,
    fun props s h1 h2 herr => ?_, fun props s v h1 h2 h3 h4 => ?_⟩
  · simp [getSessionWorkersLimit, h, defaultSessionLimit]
  · simp [getSessionWorkersLimit, h1, h2, defaultSessionLimit]
  · simp only [getSessionWorkersLimit, h1, h2, h3, defaultSessionLimit]
    rw [if_neg (by simp), if_pos h4]
  · have h0 : (goAtoi s).1 = 0 := goAtoi_err_fst_eq_zero s herr
    simp only [getSessionWorkersLimit, h1, h2]
    rw [if_pos herr, h0]
  · simp only [getSessionWorkersLimit, h1, h2, h3, defaultSessionLimit]
    rw [if_neg (by simp), if_neg (by omega)]

/-- Witness for C9: no properties gives 2, an unparseable value gives 0,
a parseable positive value is returned, a non-positive value gives 2. -/
theorem getSessionWorkersLimit_spec_witness :
    getSessionWorkersLimit { Properties := none } = 2
    ∧ getSessionWorkersLimit
        { Properties := some [("sessionLimit", "abc")] } = 0
    ∧ getSessionWorkersLimit
        { Properties := some [("sessionLimit", "5")] } = 5
    ∧ getSessionWorkersLimit
        { Properties := some [("sessionLimit", "-3")] } = 2 :=
  ⟨(getSessionWorkersLimit_spec { Properties := none }).1 rfl,
   (getSessionWorkersLimit_spec
      { Properties := some [("sessionLimit", "abc")] }).2.2.2.1
      _ "abc" rfl rfl (by decide),
   (getSessionWorkersLimit_spec
      { Properties := some [("sessionLimit", "5")] }).2.2.2.2
      _ "5" 5 rfl rfl (by decide) (by decide),
   (getSessionWorkersLimit_spec
      { Properties := some [("sessionLimit", "-3")] }).2.2.1
      _ "-3" (-3) rfl rfl (by decide) (by decide)⟩

lemma dropWhile_eq_nil_iff_all (p : Char → Bool) (l : List Char) :
    l.dropWhile p = [] ↔ l.all p = true := by
  induction l with
  | nil => simp [List.dropWhile]
  | cons c rest ih =>
    by_cases h : p c <;> simp [List.dropWhile, h, ih]

/-- C10: `fileSystemSafeContainerName` never returns the empty string;
when the name has a character other than a leading hyphen it returns the
name with all leading hyphens removed, and when the name is empty or all
hyphens it returns the nameless-container fallback built from the fresh
UUID. -/
theorem fileSystemSafeContainerName_spec (name uuid : String) :
    fileSystemSafeContainerName name uuid ≠ ""
    ∧ (¬ name.data.all (fun c => c = '-') = true →
        fileSystemSafeContainerName name uuid = trimLeftHyphens name)
    ∧ (name.data.all (fun c => c = '-') = true →
        fileSystemSafeContainerName name uuid
          = namelessContainerPrefixStr ++ uuid) := by
  have hiff : trimLeftHyphens name = "" ↔
      name.data.all (fun c => c = '-') = true := by
    constructor
    · intro h
      have hd : name.data.dropWhile (fun c => c = '-') = [] :=
        congrArg String.data h
      exact (dropWhile_eq_nil_iff_all _ _).mp hd
    · intro h
      have hd := (dropWhile_eq_nil_iff_all (fun c => c = '-')
        name.data).mpr h
      show (⟨name.data.dropWhile (fun c => c = '-')⟩ : String) = ""
      rw [hd]
  have happ : (namelessContainerPrefixStr ++ uuid) ≠ "" := by
    intro h
    have hd2 : namelessContainerPrefixStr.data ++ uuid.data
        = ([] : List Char) := congrArg String.data h
    have h3 := List.append_eq_nil.mp hd2
    have hne : namelessContainerPrefixStr.data ≠ [] := by decide
    exact hne h3.1
  refine ⟨?_, fun h => ?_, fun h => ?_⟩
  · unfold fileSystemSafeContainerName
    by_cases hcn : trimLeftHyphens name = ""
    · rw [if_pos hcn]
      exact happ
    · rw [if_neg hcn]
      exact hcn
  · unfold fileSystemSafeContainerName
    rw [if_neg (fun hc => h (hiff.mp hc))]
  · unfold fileSystemSafeContainerName
    rw [if_pos (hiff.mpr h)]

/-- Witness for C10: a name with leading hyphens is trimmed, and an
all-hyphen name falls back to the nameless-container name. -/
theorem fileSystemSafeContainerName_spec_witness :
    fileSystemSafeContainerName "--web" "u1" ≠ ""
    ∧ fileSystemSafeContainerName "--web" "u1" = "web"
    ∧ fileSystemSafeContainerName "---" "u1" = "nameless-container-u1" :=
  ⟨(fileSystemSafeContainerName_spec "--web" "u1").1,
   by
    have h := (fileSystemSafeContainerName_spec "--web" "u1").2.1 (by decide)
    rw [h]
    decide,
   by
    have h := (fileSystemSafeContainerName_spec "---" "u1").2.2 (by decide)
    rw [h]
    decide⟩

end ExecCmd
